import Mathlib
set_option autoImplicit false
namespace P2PNodeStats
/-!
Shallow embedding of `src/lib.rs` of the `p2p-node-stats` crate.

Modeling conventions:
- `std::time::Duration` is modeled as its total number of nanoseconds, a `Nat`.
  `Duration` addition is `Nat` addition (the panic on `u64`-seconds overflow of
  the Rust type is not modeled; no claim reaches durations of that magnitude).
  Division of a `Duration` by a `u32` is `checked_div` below, transcribed from
  `Duration::checked_div` in the Rust standard library.
- A Rust panic is modeled as `none` / a `none`-producing branch.
- `f64` arithmetic in the statistics estimators is idealized as exact real
  arithmetic over `ℝ` (see `durations_std_dev` below).
-/
/-!
The `CHashMap<String, Vec<Duration>>` maps are modeled as association lists
(hash order is irrelevant to the claims; keys stay unique because
`insert_new` is only reached under a negative `contains_key` check). The
claims settled against this model are about sequential execution; the
concurrent interleaving claims are out of scope of the embedding.
-/
/-- Nanoseconds per second, as in the Rust standard library. -/
def NANOS_PER_SEC : Nat := 1000000000
/-- `impl<T> PushLossy<T> for Vec<T>` from `src/lib.rs`:
```
if self.len() >= window_size {
    self.remove(0);
}
self.push(element);
```
`Vec::remove(0)` panics when the vector is empty (index `0` is out of bounds
for length `0`), which is reachable exactly when `window_size = 0` and the
buffer is empty; the panic is modeled as `none`. -/
def push_lossy {α : Type} (self : List α) (element : α) (window_size : Nat) :
    Option (List α) :=
  if window_size ≤ self.length then
    match self with
    | [] => none
    | _ :: rest => some (rest ++ [element])
  else
    some (self ++ [element])
/-- A finite sequence of `push_lossy` calls applied in order to a buffer;
`none` as soon as one of the pushes panics. -/
def pushAll {α : Type} (self : List α) (elements : List α) (window_size : Nat) :
    Option (List α) :=
  elements.foldlM (fun acc x => push_lossy acc x window_size) self
/-- `Duration::checked_div` from the Rust standard library, over the
total-nanosecond representation (`self.secs = d / NANOS_PER_SEC`,
`self.nanos = d % NANOS_PER_SEC`):
```
if rhs != 0 {
    let (secs, extra_secs) = (self.secs / (rhs as u64), self.secs % (rhs as u64));
    let (mut nanos, extra_nanos) = (self.nanos.0 / rhs, self.nanos.0 % rhs);
    nanos += ((extra_secs * (NANOS_PER_SEC as u64) + extra_nanos as u64) / (rhs as u64)) as u32;
    Some(Duration::new(secs, nanos))
} else { None }
```
The operator `/` on `Duration` is this followed by an `expect`, i.e. a panic
(`none`) on a zero divisor. -/
def checked_div (self : Nat) (rhs : Nat) : Option Nat :=
  if rhs ≠ 0 then
    some (self / NANOS_PER_SEC / rhs * NANOS_PER_SEC +
      (self % NANOS_PER_SEC / rhs +
        (self / NANOS_PER_SEC % rhs * NANOS_PER_SEC + self % NANOS_PER_SEC % rhs) / rhs))
  else
    none
/-- `durations_mean` from `src/lib.rs`:
```
if durations.is_empty() { None } else {
    Some(durations.iter().fold(Duration::from_secs(0), |acc, x| acc + *x)
        / durations.len() as u32)
}
```
The `/` is `checked_div(..).expect(..)`; in the taken branch the divisor
`durations.len()` is non-zero, so `checked_div` is `some` there
(`checked_div_eq`) and the function is total. The `as u32` truncation of the
length is not modeled (no claim concerns lists of `2^32` samples), and
`Duration` addition panicking on `u64`-seconds overflow is not modeled. -/
def durations_mean (durations : List Nat) : Option Nat :=
  if durations.isEmpty then
    none
  else
    checked_div (durations.foldl (fun acc x => acc + x) 0) durations.length
/-- `CHashMap::contains_key`. -/
def containsKey (m : List (String × List Nat)) (key : String) : Bool :=
  m.any (fun e => e.1 == key)
/-- `CHashMap::insert_new`: adds an entry for a key assumed absent. -/
def insert_new (m : List (String × List Nat)) (key : String) (value : List Nat) :
    List (String × List Nat) :=
  m ++ [(key, value)]
/-- `CHashMap::get_mut` / `get`: the buffer stored for `key`, if any. -/
def getEntry (m : List (String × List Nat)) (key : String) : Option (List Nat) :=
  (m.find? (fun e => e.1 == key)).map (fun e => e.2)
/-- Writing back the buffer mutated through the `get_mut` write guard. -/
def setEntry (m : List (String × List Nat)) (key : String) (value : List Nat) :
    List (String × List Nat) :=
  m.map (fun e => if e.1 == key then (key, value) else e)
/-- The keys of the map (`CHashMap` iteration order abstracted to list order). -/
def keys (m : List (String × List Nat)) : List String :=
  m.map (fun e => e.1)
/-- The `Stats` struct of `src/lib.rs`. -/
structure Stats where
  pings_to_peers : List (String × List Nat)
  transmissions_rates : List (String × List Nat)
  window_size : Nat
  peer_id : String
/-- `Stats::new`. -/
def Stats.new (window_size : Nat) (peer_id : String) : Stats :=
  ⟨[], [], window_size, peer_id⟩
/-- `Stats::add_ping`:
```
if !self.pings_to_peers.contains_key(&peer_id) {
    self.pings_to_peers.insert_new(peer_id.clone(), Vec::new())
}
self.pings_to_peers.get_mut(&peer_id)
    .expect("Failed to get peer entry")
    .push_lossy(rtt, self.window_size)
```
The `expect` panic and a `push_lossy` panic are both modeled as `none`. -/
def add_ping (s : Stats) (peer_id : String) (rtt : Nat) : Option Stats :=
  let pings :=
    if containsKey s.pings_to_peers peer_id then s.pings_to_peers
    else insert_new s.pings_to_peers peer_id []
  match getEntry pings peer_id with
  | none => none
  | some buffer =>
    (push_lossy buffer rtt s.window_size).map
      (fun buffer2 =>
        Stats.mk (setEntry pings peer_id buffer2) s.transmissions_rates
          s.window_size s.peer_id)
/-- `Stats::add_transmission`: as `add_ping` on the `transmissions_rates` map,
pushing the transmission rate `time / n_bytes` (elapsed time per byte). The
division is `Duration / u32`, which panics (`none`) when `n_bytes = 0`; it is
evaluated after the entry for `peer_id` has already been created. -/
def add_transmission (s : Stats) (peer_id : String) (time : Nat) (n_bytes : Nat) :
    Option Stats :=
  let rates :=
    if containsKey s.transmissions_rates peer_id then s.transmissions_rates
    else insert_new s.transmissions_rates peer_id []
  match getEntry rates peer_id with
  | none => none
  | some buffer =>
    match checked_div time n_bytes with
    | none => none
    | some rate =>
      (push_lossy buffer rate s.window_size).map
        (fun buffer2 =>
          Stats.mk s.pings_to_peers (setEntry rates peer_id buffer2)
            s.window_size s.peer_id)
/-- A sequence of `record_ping` calls, one per listed peer. -/
def recordPings (s : Stats) (peers : List String) (rtt : Nat) : Option Stats :=
  peers.foldlM (fun acc p => add_ping acc p rtt) s
/-- `Duration::as_secs_f64`, idealized: the exact real number of seconds
represented by the duration. -/
noncomputable def as_secs_f64 (d : Nat) : ℝ := (d : ℝ) / (NANOS_PER_SEC : ℝ)
/-- `durations_std_dev` from `src/lib.rs`:
```
let mean = durations_mean(durations)?.as_secs_f64();
Some(Duration::from_secs_f64(
    (durations.iter().fold(0f64, |acc, x| acc + (x.as_secs_f64() - mean).powi(2))
        / (durations.len() as f64)).sqrt(),
))
```
`f64` arithmetic is idealized as exact real arithmetic, and the
`Duration::from_secs_f64` round trip back through `as_secs_f64` performed by
the caller (a quantization of the result to whole nanoseconds, with a panic
on a negative or NaN argument that the square root of the non-negative
variance never produces) is modeled as the identity, so the result stays a
real number. -/
noncomputable def durations_std_dev (durations : List Nat) : Option ℝ :=
  (durations_mean durations).map (fun mean =>
    Real.sqrt
      ((durations.foldl
          (fun acc x => acc + (as_secs_f64 x - as_secs_f64 mean) ^ 2) 0)
        / (durations.length : ℝ)))
/-- The margin-of-error formula `z * std_dev / sqrt(n)` with `z = 1.96`, the
z-value for a 95 percent confidence interval. -/
noncomputable def ci95_margin (std_dev : ℝ) (n : Nat) : ℝ :=
  1.96 * std_dev / Real.sqrt (n : ℝ)
/-- `durations_error_with_ci` from `src/lib.rs`:
```
let z = 1.96;
let std_dev = durations_std_dev(durations)?;
Some(Duration::from_secs_f64(
    z * std_dev.as_secs_f64() / (durations.len() as f64).sqrt(),
))
```
with the same exact-real idealization as `durations_std_dev`. -/
noncomputable def durations_error_with_ci (durations : List Nat) : Option ℝ :=
  (durations_std_dev durations).map (fun std_dev =>
    ci95_margin std_dev durations.length)
/-- Rust `{:?}` (Debug) formatting of a `String`: the text surrounded by
double quotes. Escape sequences inside the text are not modeled; no claim
involves peer identifiers that need escaping. -/
def debugStr (s : String) : String := "\"" ++ s ++ "\""
/-- One entry of the ping section of `impl fmt::Display for Stats`:
```
match (durations_mean(&durations), durations_error_with_ci(&durations)) {
    (Some(duration), Some(error)) => format!("{:?} {:?}±{:?}\n", peer, duration, error),
    _ => format!("No ping data for peer {:?}", peer),
}
```
`fmtD` and `fmtE` abstract the `{:?}` Debug rendering of the mean `Duration`
and of the error `Duration` (the spec fixes the structure of the report, not
the token spelling of a rendered duration). The no-data branch has no
trailing newline, faithful to the source. -/
noncomputable def pingLine (fmtD : Nat → String) (fmtE : ℝ → String) (peer : String)
    (durations : List Nat) : String :=
  match durations_mean durations, durations_error_with_ci durations with
  | some duration, some error =>
      debugStr peer ++ " " ++ fmtD duration ++ "±" ++ fmtE error ++ "\n"
  | _, _ => "No ping data for peer " ++ debugStr peer
/-- One entry of the transmission section of `impl fmt::Display for Stats`,
with the `" per byte"` suffix of
`format!("{:?} {:?}±{:?} per byte\n", peer, duration, error)` and the
`"No transmission data for peer {:?}"` no-data branch. -/
noncomputable def transmissionLine (fmtD : Nat → String) (fmtE : ℝ → String) (peer : String)
    (durations : List Nat) : String :=
  match durations_mean durations, durations_error_with_ci durations with
  | some duration, some error =>
      debugStr peer ++ " " ++ fmtD duration ++ "±" ++ fmtE error ++ " per byte\n"
  | _, _ => "No transmission data for peer " ++ debugStr peer
/-- `impl fmt::Display for Stats`:
```
write!(f, "{:?}\nPing mean for each peer:\n{}Transmission rate mean by peer:\n{}",
    self.peer_id, ping_by_peer, transmission_rate_by_peer)
```
where the two section bodies are the concatenated per-peer entries. -/
noncomputable def statsDisplay (fmtD : Nat → String) (fmtE : ℝ → String) (s : Stats) : String :=
  let ping_by_peer := String.join (s.pings_to_peers.map
    (fun e => pingLine fmtD fmtE e.1 e.2))
  let transmission_rate_by_peer := String.join (s.transmissions_rates.map
    (fun e => transmissionLine fmtD fmtE e.1 e.2))
  debugStr s.peer_id ++ "\nPing mean for each peer:\n" ++ ping_by_peer
    ++ "Transmission rate mean by peer:\n" ++ transmission_rate_by_peer
theorem push_lossy_nil_zero {α : Type} (element : α) :
    push_lossy ([] : List α) element 0 = none := rfl
theorem push_lossy_cons_full {α : Type} (y : α) (t : List α) (element : α) (w : Nat)
    (h : w ≤ t.length + 1) :
    push_lossy (y :: t) element w = some (t ++ [element]) := by
  unfold push_lossy
  rw [if_pos (by simpa using h)]
theorem push_lossy_not_full {α : Type} (self : List α) (element : α) (w : Nat)
    (h : self.length < w) :
    push_lossy self element w = some (self ++ [element]) := by
  unfold push_lossy
  rw [if_neg (by omega)]
theorem push_lossy_isSome_of_pos {α : Type} (self : List α) (element : α) (c : Nat)
    (hc : 1 ≤ c) : (push_lossy self element c).isSome = true := by
  by_cases h : c ≤ self.length
  · cases self with
    | nil => simp at h; omega
    | cons y t =>
        rw [push_lossy_cons_full y t element c (by simpa using h)]
        rfl
  · rw [push_lossy_not_full self element c (by omega)]
    rfl
theorem pushAll_nil {α : Type} (self : List α) (w : Nat) :
    pushAll self [] w = some self := rfl
theorem pushAll_cons {α : Type} (self : List α) (x : α) (xs : List α) (w : Nat) :
    pushAll self (x :: xs) w =
      (push_lossy self x w).bind (fun acc => pushAll acc xs w) := by
  simp [pushAll, List.foldlM_cons]
/-- Main sliding-window invariant of `push_lossy`: for a positive capacity,
pushing `elements` onto a buffer that respects the capacity never panics and
leaves exactly the last `window_size` items (of buffer plus pushed elements)
in arrival order. -/
theorem pushAll_drop {α : Type} (elements : List α) (self : List α) (window_size : Nat)
    (hw : 1 ≤ window_size) (hlen : self.length ≤ window_size) :
    pushAll self elements window_size =
      some ((self ++ elements).drop ((self ++ elements).length - window_size)) := by
  induction elements generalizing self with
  | nil =>
      rw [pushAll_nil]
      simp [Nat.sub_eq_zero_of_le, hlen]
  | cons x xs ih =>
      rw [pushAll_cons]
      by_cases h : window_size ≤ self.length
      · -- the buffer is full: `self.length = window_size ≥ 1`
        have hfull : self.length = window_size := Nat.le_antisymm hlen h
        cases self with
        | nil => simp at hfull; omega
        | cons y t =>
          have ht : t.length + 1 = window_size := by simpa using hfull
          rw [push_lossy_cons_full y t x window_size (by omega)]
          simp only [Option.some_bind]
          rw [ih (t ++ [x]) (by simp; omega)]
          congr 1
          have h1 : (t ++ [x]) ++ xs = t ++ x :: xs := by simp
          rw [h1]
          have h2 : (y :: t ++ x :: xs) = y :: (t ++ x :: xs) := by simp
          rw [h2, List.length_cons, Nat.succ_sub (by simp; omega), List.drop_succ_cons]
      · -- the buffer still has room: append without eviction
        rw [push_lossy_not_full self x window_size (by omega)]
        simp only [Option.some_bind]
        rw [ih (self ++ [x]) (by simp; omega)]
        congr 2 <;> simp
/-- C1 (amended: capacity at least 1): for every capacity `c ≥ 1` and every
finite sequence of pushes via `push_lossy` into an initially empty buffer,
no push panics, the final buffer is exactly the last `min(total_pushes, c)`
pushed values in arrival order (oldest evicted first), and its length is at
most `c`. With capacity `0` the very first push into the empty buffer panics
(see the counterexample), so the original unrestricted claim fails. -/
theorem push_lossy_sliding_window (α : Type) (xs : List α) (c : Nat) (hc : 1 ≤ c) :
    pushAll ([] : List α) xs c = some (xs.drop (xs.length - c)) ∧
    (xs.drop (xs.length - c)).length = min xs.length c ∧
    (xs.drop (xs.length - c)).length ≤ c := by
  have h := pushAll_drop xs [] c hc (by simp)
  simp only [List.nil_append] at h
  refine ⟨h, ?_, ?_⟩ <;> rw [List.length_drop] <;> omega
/-- Witness for `push_lossy_sliding_window`: with capacity 2, pushing
`1, 2, 3` leaves the buffer equal to `[2, 3]`. -/
theorem push_lossy_sliding_window_witness :
    pushAll ([] : List Nat) [1, 2, 3] 2 = some [2, 3] := by
  have h := (push_lossy_sliding_window Nat [1, 2, 3] 2 (by decide)).1
  simpa using h
/-- C1 counterexample: with capacity `0`, a single push into the initially
empty buffer panics (`Vec::remove(0)` on an empty vector), so there is no
final buffer at all — in particular it is not the empty buffer the claim
predicts for `min(1, 0) = 0` retained values. -/
theorem push_lossy_capacity_zero_cex :
    pushAll ([] : List Nat) [1] 0 = none ∧
    pushAll ([] : List Nat) [1] 0 ≠ some [] := by decide
/-- C2 (amended): `push_lossy` with capacity `0` panics on an empty buffer
(`Vec::remove(0)` out of bounds); on a non-empty buffer it evicts the oldest
element and appends the new sample, so the sample is not discarded and the
buffer never becomes empty. For every capacity `c ≥ 1`, `push_lossy` has no
error conditions on any buffer. -/
theorem push_lossy_capacity_zero_behavior (α : Type) :
    (∀ element : α, push_lossy ([] : List α) element 0 = none) ∧
    (∀ (self : List α) (element : α), self ≠ [] →
      push_lossy self element 0 = some (self.tail ++ [element])) ∧
    (∀ (self : List α) (element : α) (c : Nat), 1 ≤ c →
      (push_lossy self element c).isSome = true) := by
  refine ⟨fun element => rfl, ?_, fun self element c hc =>
    push_lossy_isSome_of_pos self element c hc⟩
  intro self element hne
  cases self with
  | nil => exact absurd rfl hne
  | cons y t => rw [push_lossy_cons_full y t element 0 (by omega)]; rfl
/-- Witness for `push_lossy_capacity_zero_behavior` at concrete inputs:
capacity 0 on the non-empty buffer `[5]` yields `[7]` (the sample is kept,
the buffer does not empty), and capacity 1 never fails. -/
theorem push_lossy_capacity_zero_behavior_witness :
    push_lossy [5] 7 0 = some [7] ∧ (push_lossy ([] : List Nat) 1 1).isSome = true := by
  refine ⟨?_, (push_lossy_capacity_zero_behavior Nat).2.2 [] 1 1 (by decide)⟩
  have h := (push_lossy_capacity_zero_behavior Nat).2.1 [5] 7 (by decide)
  simpa using h
/-- C2 counterexample: with capacity `0`, pushing into the empty buffer
panics rather than silently discarding the sample, and pushing into the
non-empty buffer `[5]` appends the sample (result `[7]`) rather than
discarding it and leaving the buffer empty. -/
theorem push_lossy_capacity_zero_cex2 :
    push_lossy ([] : List Nat) 1 0 = none ∧ push_lossy [5] 7 0 = some [7] := by decide
theorem split_div (A B k rhs : Nat) (hrhs : 0 < rhs) :
    A / rhs * k + (B / rhs + (A % rhs * k + B % rhs) / rhs) = (A * k + B) / rhs := by
  have hA : A * k + B = rhs * (A / rhs * k) + (A % rhs * k + B) := by
    conv_lhs => rw [← Nat.div_add_mod A rhs]
    ring
  have hB : A % rhs * k + B = rhs * (B / rhs) + (A % rhs * k + B % rhs) := by
    conv_lhs => rw [← Nat.div_add_mod B rhs]
    ring
  rw [hA, Nat.mul_add_div hrhs, hB, Nat.mul_add_div hrhs]
/-- `Duration::checked_div` agrees with exact integer division of the total
nanosecond count (current Rust standard library behavior). -/
theorem checked_div_eq (d rhs : Nat) (h : rhs ≠ 0) :
    checked_div d rhs = some (d / rhs) := by
  have hrhs : 0 < rhs := Nat.pos_of_ne_zero h
  unfold checked_div
  rw [if_pos h]
  congr 1
  rw [split_div (d / NANOS_PER_SEC) (d % NANOS_PER_SEC) NANOS_PER_SEC rhs hrhs,
    Nat.div_add_mod']
theorem durations_mean_eq_none_iff (durations : List Nat) :
    durations_mean durations = none ↔ durations = [] := by
  unfold durations_mean
  by_cases h : durations.isEmpty
  · rw [if_pos h]
    simp [List.isEmpty_iff.mp h]
  · rw [if_neg h]
    have hne : durations ≠ [] := by simpa [List.isEmpty_iff] using h
    rw [checked_div_eq _ _ (Nat.pos_iff_ne_zero.mp (List.length_pos.mpr hne))]
    simp [hne]
theorem foldl_add_eq_sum (durations : List Nat) :
    durations.foldl (fun acc x => acc + x) 0 = durations.sum := by
  rw [List.sum_eq_foldl]
theorem durations_mean_eq_some (durations : List Nat) (h : durations ≠ []) :
    durations_mean durations = some (durations.sum / durations.length) := by
  unfold durations_mean
  rw [if_neg (by simpa [List.isEmpty_iff] using h), foldl_add_eq_sum,
    checked_div_eq _ _ (Nat.pos_iff_ne_zero.mp (List.length_pos.mpr h))]
/-- C4: `durations_mean` returns `none` if and only if the input sequence is
empty; for a non-empty sequence it returns the sum of all samples divided by
their count (integer division of the total nanosecond count, as `Duration`
division does); in particular `mean [1s, 3s, 5s] = 3s`. -/
theorem durations_mean_spec :
    (∀ durations : List Nat,
      (durations_mean durations = none ↔ durations = []) ∧
      (durations ≠ [] →
        durations_mean durations = some (durations.sum / durations.length))) ∧
    durations_mean [1 * NANOS_PER_SEC, 3 * NANOS_PER_SEC, 5 * NANOS_PER_SEC] =
      some (3 * NANOS_PER_SEC) := by
  refine ⟨fun durations =>
    ⟨durations_mean_eq_none_iff durations, durations_mean_eq_some durations⟩, ?_⟩
  rw [durations_mean_eq_some _ (by decide)]
  rfl
/-- Witness for `durations_mean_spec`: the non-emptiness hypothesis
discharged at the concrete input `[2]`. -/
theorem durations_mean_spec_witness : durations_mean [2] = some 2 := by
  have h := (durations_mean_spec.1 [2]).2 (by decide)
  simpa using h
theorem containsKey_iff_mem_keys (m : List (String × List Nat)) (key : String) :
    containsKey m key = true ↔ key ∈ keys m := by
  unfold containsKey keys
  rw [List.any_eq_true]
  constructor
  · rintro ⟨e, he, hkey⟩
    exact List.mem_map.mpr ⟨e, he, (beq_iff_eq.mp hkey)⟩
  · intro h
    rcases List.mem_map.mp h with ⟨e, he, hkey⟩
    exact ⟨e, he, beq_iff_eq.mpr hkey⟩
theorem keys_insert_new (m : List (String × List Nat)) (key : String) (value : List Nat) :
    keys (insert_new m key value) = keys m ++ [key] := by
  unfold keys insert_new
  simp
theorem keys_setEntry (m : List (String × List Nat)) (key : String) (value : List Nat) :
    keys (setEntry m key value) = keys m := by
  unfold keys setEntry
  rw [List.map_map]
  refine List.map_congr_left (fun e _ => ?_)
  by_cases h : e.1 == key
  · simp only [Function.comp_apply, if_pos h]
    exact (beq_iff_eq.mp h).symm
  · simp only [Function.comp_apply, if_neg h]
/-- The lookup that `add_ping` / `add_transmission` perform after their
conditional insert always succeeds. -/
theorem getEntry_insert_isSome (m : List (String × List Nat)) (key : String) :
    (getEntry (if containsKey m key then m else insert_new m key []) key).isSome = true := by
  have hmem : ∃ e ∈ (if containsKey m key then m else insert_new m key []),
      (e.1 == key) = true := by
    by_cases h : containsKey m key
    · rw [if_pos h]
      exact List.any_eq_true.mp h
    · rw [if_neg h]
      exact ⟨(key, []), by simp [insert_new], by simp⟩
  unfold getEntry
  obtain ⟨e, hf⟩ := Option.isSome_iff_exists.mp (List.find?_isSome.mpr hmem)
  rw [hf]
  rfl
theorem add_ping_some {s : Stats} {peer_id : String} {rtt : Nat} {s2 : Stats}
    (h : add_ping s peer_id rtt = some s2) :
    ∃ buffer buffer2,
      getEntry (if containsKey s.pings_to_peers peer_id then s.pings_to_peers
        else insert_new s.pings_to_peers peer_id []) peer_id = some buffer ∧
      push_lossy buffer rtt s.window_size = some buffer2 ∧
      s2 = Stats.mk
        (setEntry (if containsKey s.pings_to_peers peer_id then s.pings_to_peers
          else insert_new s.pings_to_peers peer_id []) peer_id buffer2)
        s.transmissions_rates s.window_size s.peer_id := by
  simp only [add_ping] at h
  split at h
  next hE => cases h
  next buffer hE =>
    rcases Option.map_eq_some'.mp h with ⟨buffer2, hP, hmk⟩
    exact ⟨buffer, buffer2, hE, hP, hmk.symm⟩
theorem add_transmission_some {s : Stats} {peer_id : String} {time n_bytes : Nat}
    {s2 : Stats} (h : add_transmission s peer_id time n_bytes = some s2) :
    ∃ buffer rate buffer2,
      getEntry (if containsKey s.transmissions_rates peer_id then s.transmissions_rates
        else insert_new s.transmissions_rates peer_id []) peer_id = some buffer ∧
      checked_div time n_bytes = some rate ∧
      push_lossy buffer rate s.window_size = some buffer2 ∧
      s2 = Stats.mk s.pings_to_peers
        (setEntry (if containsKey s.transmissions_rates peer_id then s.transmissions_rates
          else insert_new s.transmissions_rates peer_id []) peer_id buffer2)
        s.window_size s.peer_id := by
  simp only [add_transmission] at h
  split at h
  next hE => cases h
  next buffer hE =>
    split at h
    next hD => cases h
    next rate hD =>
      rcases Option.map_eq_some'.mp h with ⟨buffer2, hP, hmk⟩
      exact ⟨buffer, rate, buffer2, hE, hD, hP, hmk.symm⟩
theorem keys_after_insert (m : List (String × List Nat)) (key : String)
    (value : List Nat) :
    keys (setEntry (if containsKey m key then m else insert_new m key []) key value) =
      (if containsKey m key then keys m else keys m ++ [key]) := by
  rw [keys_setEntry]
  by_cases h : containsKey m key
  · rw [if_pos h, if_pos h]
  · rw [if_neg h, if_neg h, keys_insert_new]
/-- Sequential totality of `add_ping` for a positive window size: the `expect`
lookup succeeds and `push_lossy` does not panic. -/
theorem add_ping_isSome (s : Stats) (peer_id : String) (rtt : Nat)
    (hw : 1 ≤ s.window_size) :
    (add_ping s peer_id rtt).isSome = true := by
  simp only [add_ping]
  obtain ⟨buffer, hE⟩ := Option.isSome_iff_exists.mp
    (getEntry_insert_isSome s.pings_to_peers peer_id)
  obtain ⟨buffer2, hP⟩ := Option.isSome_iff_exists.mp
    (push_lossy_isSome_of_pos buffer rtt s.window_size hw)
  rw [hE]
  simp [hP]
theorem recordPings_nil (s : Stats) (rtt : Nat) : recordPings s [] rtt = some s := rfl
theorem recordPings_cons (s : Stats) (p : String) (ps : List String) (rtt : Nat) :
    recordPings s (p :: ps) rtt =
      (add_ping s p rtt).bind (fun acc => recordPings acc ps rtt) := by
  simp [recordPings, List.foldlM_cons]
theorem add_ping_keys {s : Stats} {peer_id : String} {rtt : Nat} {s2 : Stats}
    (h : add_ping s peer_id rtt = some s2) :
    keys s2.pings_to_peers =
      (if containsKey s.pings_to_peers peer_id then keys s.pings_to_peers
       else keys s.pings_to_peers ++ [peer_id]) ∧
    s2.transmissions_rates = s.transmissions_rates := by
  obtain ⟨buffer, buffer2, hE, hP, hs2⟩ := add_ping_some h
  subst hs2
  exact ⟨keys_after_insert s.pings_to_peers peer_id buffer2, rfl⟩
theorem recordPings_fresh_keys (peers : List String) (s : Stats) (rtt : Nat)
    (s2 : Stats) (hnodup : peers.Nodup)
    (hfresh : ∀ p ∈ peers, containsKey s.pings_to_peers p = false)
    (h : recordPings s peers rtt = some s2) :
    keys s2.pings_to_peers = keys s.pings_to_peers ++ peers := by
  induction peers generalizing s with
  | nil =>
    rw [recordPings_nil] at h
    rw [← Option.some_inj.mp h]
    simp
  | cons p ps ih =>
    rw [recordPings_cons] at h
    cases hA : add_ping s p rtt with
    | none => rw [hA] at h; cases h
    | some s1 =>
      rw [hA] at h
      simp only [Option.some_bind] at h
      have hkeys := add_ping_keys hA
      have hp : containsKey s.pings_to_peers p = false := hfresh p (by simp)
      rw [hp] at hkeys
      simp only [Bool.false_eq_true, if_false] at hkeys
      have hfresh1 : ∀ q ∈ ps, containsKey s1.pings_to_peers q = false := by
        intro q hq
        have hqs : containsKey s.pings_to_peers q = false := hfresh q (by simp [hq])
        have hqp : q ≠ p := by
          rintro rfl
          exact (List.nodup_cons.mp hnodup).1 hq
        rw [← Bool.not_eq_true] at hqs ⊢
        intro hcontra
        apply hqs
        rw [containsKey_iff_mem_keys] at hcontra ⊢
        rw [hkeys.1] at hcontra
        rcases List.mem_append.mp hcontra with hin | hin
        · exact hin
        · exact absurd (List.mem_singleton.mp hin) hqp
      have := ih s1 (List.nodup_cons.mp hnodup).2 hfresh1 h
      rw [this, hkeys.1]
      simp
/-- C7: peer map entries are created lazily on first record and never removed.
A successful `add_ping` (`add_transmission`) leaves the ping (transmission)
key set unchanged when the peer is already present and appends exactly the
new peer otherwise, and never touches the other map; with a positive window
size `add_ping` always succeeds; and recording once for each of `N` distinct
fresh peers on a new tracker yields exactly those `N` keys. -/
theorem peer_entries_lazy_and_persistent :
    (∀ (s s2 : Stats) (peer_id : String) (rtt : Nat),
      add_ping s peer_id rtt = some s2 →
      keys s2.pings_to_peers =
        (if containsKey s.pings_to_peers peer_id then keys s.pings_to_peers
         else keys s.pings_to_peers ++ [peer_id]) ∧
      s2.transmissions_rates = s.transmissions_rates) ∧
    (∀ (s s2 : Stats) (peer_id : String) (time n_bytes : Nat),
      add_transmission s peer_id time n_bytes = some s2 →
      keys s2.transmissions_rates =
        (if containsKey s.transmissions_rates peer_id then keys s.transmissions_rates
         else keys s.transmissions_rates ++ [peer_id]) ∧
      s2.pings_to_peers = s.pings_to_peers) ∧
    (∀ (s : Stats) (peer_id : String) (rtt : Nat), 1 ≤ s.window_size →
      (add_ping s peer_id rtt).isSome = true) ∧
    (∀ (peers : List String) (w : Nat) (node : String) (rtt : Nat) (s2 : Stats),
      peers.Nodup → recordPings (Stats.new w node) peers rtt = some s2 →
      keys s2.pings_to_peers = peers) := by
  refine ⟨fun s s2 peer_id rtt h => add_ping_keys h, ?_, add_ping_isSome, ?_⟩
  · intro s s2 peer_id time n_bytes h
    obtain ⟨buffer, rate, buffer2, hE, hD, hP, hs2⟩ := add_transmission_some h
    subst hs2
    exact ⟨keys_after_insert s.transmissions_rates peer_id buffer2, rfl⟩
  · intro peers w node rtt s2 hnodup h
    have := recordPings_fresh_keys peers (Stats.new w node) rtt s2 hnodup
      (fun p _ => rfl) h
    simpa [Stats.new, keys] using this
/-- Witness for `peer_entries_lazy_and_persistent`: two distinct peers
recorded once each on a fresh tracker with window size 100 give exactly their
two keys. -/
theorem peer_entries_lazy_and_persistent_witness :
    keys (Stats.mk [("2", [1]), ("3", [1])] [] 100 "1").pings_to_peers = ["2", "3"] :=
  peer_entries_lazy_and_persistent.2.2.2 ["2", "3"] 100 "1" 1
    (Stats.mk [("2", [1]), ("3", [1])] [] 100 "1") (by decide) (by rfl)
/-- C10: in sequential execution the lookup performed by `add_ping` and
`add_transmission` right after their conditional insert always succeeds: the
`expect("Failed to get peer entry")` branch is unreachable, because each
function inserts an entry for the peer when none exists before calling
`get_mut` on that same key. -/
theorem get_mut_after_insert_never_fails :
    ∀ (m : List (String × List Nat)) (key : String),
      (getEntry (if containsKey m key then m else insert_new m key []) key).isSome
        = true :=
  getEntry_insert_isSome
/-- C3: `add_transmission` with `byte_count = 0` always reaches the unguarded
`Duration` division by zero and panics (modeled as `none`), for every tracker
state, peer and elapsed time. The entry for the peer has already been created
when the division panics. -/
theorem add_transmission_zero_bytes_panics :
    ∀ (s : Stats) (peer_id : String) (time : Nat),
      add_transmission s peer_id time 0 = none := by
  intro s peer_id time
  have hD : checked_div time 0 = none := by
    unfold checked_div
    rw [if_neg (by simp)]
  simp only [add_transmission, hD]
  cases getEntry (if containsKey s.transmissions_rates peer_id then
      s.transmissions_rates else insert_new s.transmissions_rates peer_id [])
      peer_id <;> rfl
theorem durations_std_dev_eq_none_iff (durations : List Nat) :
    durations_std_dev durations = none ↔ durations = [] := by
  unfold durations_std_dev
  rw [Option.map_eq_none']
  exact durations_mean_eq_none_iff durations
theorem durations_std_dev_single (d : Nat) : durations_std_dev [d] = some 0 := by
  have hm : durations_mean [d] = some d := by
    have h := durations_mean_eq_some [d] (by simp)
    simpa using h
  unfold durations_std_dev
  rw [hm, Option.map_some']
  congr 1
  simp only [List.foldl_cons, List.foldl_nil, sub_self]
  norm_num [Real.sqrt_zero]
theorem durations_std_dev_nonneg (durations : List Nat) (x : ℝ)
    (h : durations_std_dev durations = some x) : 0 ≤ x := by
  unfold durations_std_dev at h
  rcases Option.map_eq_some'.mp h with ⟨mean, hm, hx⟩
  rw [← hx]
  exact Real.sqrt_nonneg _
/-- C5: `durations_std_dev` computes the population standard deviation (the
sum of squared deviations from the reported mean divided by `n`, not `n - 1`,
then square-rooted; witnessed by the repository's own 1.63-tolerance check on
`[1s, 3s, 5s]`, which the sample standard deviation `2.0` would fail); it
returns `none` exactly when the input is empty; a single-element input yields
`some 0`, never `none`; and every returned value is non-negative — in the
exact-real idealization of `f64`, where the square root of the non-negative
variance is a well-defined non-negative real and no NaN exists. -/
theorem durations_std_dev_spec :
    (∀ durations : List Nat, durations_std_dev durations = none ↔ durations = []) ∧
    (∀ d : Nat, durations_std_dev [d] = some 0) ∧
    (∀ (durations : List Nat) (x : ℝ), durations_std_dev durations = some x → 0 ≤ x) ∧
    (∃ x : ℝ, durations_std_dev [1 * NANOS_PER_SEC, 3 * NANOS_PER_SEC, 5 * NANOS_PER_SEC]
        = some x ∧ |x - 1.63| < 0.01) := by
  refine ⟨durations_std_dev_eq_none_iff, durations_std_dev_single,
    durations_std_dev_nonneg, ?_⟩
  have hm : durations_mean [1 * NANOS_PER_SEC, 3 * NANOS_PER_SEC, 5 * NANOS_PER_SEC]
      = some (3 * NANOS_PER_SEC) := by
    rw [durations_mean_eq_some _ (by decide)]
    rfl
  refine ⟨Real.sqrt (8 / 3), ?_, ?_⟩
  · unfold durations_std_dev
    rw [hm, Option.map_some']
    congr 1
    simp only [List.foldl_cons, List.foldl_nil, as_secs_f64, NANOS_PER_SEC]
    norm_num
  · have h1 : Real.sqrt (8 / 3) < 1.64 := by
      rw [show (1.64 : ℝ) = Real.sqrt (1.64 ^ 2) by
        rw [Real.sqrt_sq (by norm_num)]]
      exact Real.sqrt_lt_sqrt (by norm_num) (by norm_num)
    have h2 : (1.62 : ℝ) < Real.sqrt (8 / 3) := by
      rw [show (1.62 : ℝ) = Real.sqrt (1.62 ^ 2) by
        rw [Real.sqrt_sq (by norm_num)]]
      exact Real.sqrt_lt_sqrt (by norm_num) (by norm_num)
    rw [abs_sub_lt_iff]
    constructor <;> nlinarith
/-- Witness for `durations_std_dev_spec`: the non-negativity hypothesis
discharged at the concrete single-sample input `[5]`, whose standard
deviation is exactly zero. -/
theorem durations_std_dev_spec_witness :
    durations_std_dev [5] = some 0 ∧ (0 : ℝ) ≤ 0 :=
  ⟨durations_std_dev_spec.2.1 5,
   durations_std_dev_spec.2.2.1 [5] 0 (durations_std_dev_spec.2.1 5)⟩
theorem durations_error_with_ci_eq_none_iff (durations : List Nat) :
    durations_error_with_ci durations = none ↔ durations = [] := by
  unfold durations_error_with_ci
  rw [Option.map_eq_none']
  exact durations_std_dev_eq_none_iff durations
/-- C6: `durations_error_with_ci` computes `1.96 * std_dev / sqrt(n)`
(the `ci95_margin` applied to the standard deviation and the sample count);
it returns `none` if and only if the input sequence is empty; and for a fixed
standard deviation the margin is monotonically non-increasing in the sample
count `n ≥ 1` — more samples give a smaller or equal error margin (in the
exact-real idealization of `f64`). -/
theorem durations_error_with_ci_spec :
    (∀ durations : List Nat,
      durations_error_with_ci durations = none ↔ durations = []) ∧
    (∀ (durations : List Nat) (std_dev : ℝ),
      durations_std_dev durations = some std_dev →
      durations_error_with_ci durations =
        some (ci95_margin std_dev durations.length)) ∧
    (∀ (std_dev : ℝ) (n1 n2 : Nat), 0 ≤ std_dev → 1 ≤ n1 → n1 ≤ n2 →
      ci95_margin std_dev n2 ≤ ci95_margin std_dev n1) := by
  refine ⟨durations_error_with_ci_eq_none_iff, ?_, ?_⟩
  · intro durations std_dev h
    unfold durations_error_with_ci
    rw [h, Option.map_some']
  · intro std_dev n1 n2 hs hn1 hn12
    unfold ci95_margin
    have h1 : (0 : ℝ) < Real.sqrt n1 :=
      Real.sqrt_pos.mpr (by exact_mod_cast Nat.lt_of_lt_of_le Nat.zero_lt_one hn1)
    have h2 : Real.sqrt (n1 : ℝ) ≤ Real.sqrt (n2 : ℝ) :=
      Real.sqrt_le_sqrt (by exact_mod_cast hn12)
    exact div_le_div_of_nonneg_left (by nlinarith) h1 h2
/-- Witness for `durations_error_with_ci_spec`: the empty input maps to
`none`, and the monotonicity hypotheses are discharged at the concrete
standard deviation `0` and sample counts `1 ≤ 2`. -/
theorem durations_error_with_ci_spec_witness :
    durations_error_with_ci [] = none ∧ ci95_margin 0 2 ≤ ci95_margin 0 1 :=
  ⟨(durations_error_with_ci_spec.1 []).mpr rfl,
   durations_error_with_ci_spec.2.2 0 1 2 le_rfl (by norm_num) (by norm_num)⟩
/-- C8 (amended: the no-data marker is not newline-terminated): the report
text begins with the debug-quoted node identifier on its own line, then the
"Ping mean for each peer:" header, then one entry per observed ping-peer of
the form `<peer_id> <mean>±<error>` terminated by a newline, then the
"Transmission rate mean by peer:" header with analogous entries suffixed
" per byte"; a peer whose buffer is empty is rendered as the explicit text
"No ping data for peer <peer_id>" / "No transmission data for peer
<peer_id>" rather than being omitted — but that text lacks a trailing
newline, so it runs into whatever follows instead of forming a line of its
own. -/
theorem stats_display_structure (fmtD : Nat → String) (fmtE : ℝ → String) :
    (∀ s : Stats,
      statsDisplay fmtD fmtE s =
        debugStr s.peer_id ++ "\nPing mean for each peer:\n"
          ++ String.join (s.pings_to_peers.map (fun e => pingLine fmtD fmtE e.1 e.2))
          ++ "Transmission rate mean by peer:\n"
          ++ String.join (s.transmissions_rates.map
              (fun e => transmissionLine fmtD fmtE e.1 e.2))) ∧
    (∀ peer : String,
      pingLine fmtD fmtE peer [] = "No ping data for peer " ++ debugStr peer ∧
      transmissionLine fmtD fmtE peer [] =
        "No transmission data for peer " ++ debugStr peer) ∧
    (∀ (peer : String) (durations : List Nat), durations ≠ [] →
      ∃ (duration : Nat) (error : ℝ),
        durations_mean durations = some duration ∧
        durations_error_with_ci durations = some error ∧
        pingLine fmtD fmtE peer durations =
          debugStr peer ++ " " ++ fmtD duration ++ "±" ++ fmtE error ++ "\n" ∧
        transmissionLine fmtD fmtE peer durations =
          debugStr peer ++ " " ++ fmtD duration ++ "±" ++ fmtE error ++ " per byte\n") := by
  refine ⟨fun s => rfl, fun peer => ⟨rfl, rfl⟩, ?_⟩
  intro peer durations hne
  have hm := durations_mean_eq_some durations hne
  have hsd : durations_std_dev durations = some (Real.sqrt
      ((durations.foldl (fun acc x => acc + (as_secs_f64 x
          - as_secs_f64 (durations.sum / durations.length)) ^ 2) 0)
        / (durations.length : ℝ))) := by
    unfold durations_std_dev
    rw [hm, Option.map_some']
  have herr : durations_error_with_ci durations = some (ci95_margin
      (Real.sqrt
        ((durations.foldl (fun acc x => acc + (as_secs_f64 x
            - as_secs_f64 (durations.sum / durations.length)) ^ 2) 0)
          / (durations.length : ℝ)))
      durations.length) := by
    unfold durations_error_with_ci
    rw [hsd, Option.map_some']
  refine ⟨durations.sum / durations.length, _, hm, herr, ?_, ?_⟩
  · simp only [pingLine, hm, herr]
  · simp only [transmissionLine, hm, herr]
/-- Witness for `stats_display_structure`: the non-empty-buffer hypothesis
discharged at the concrete input `[1]` with constant formatters. -/
theorem stats_display_structure_witness :
    pingLine (fun _ => "D") (fun _ => "E") "p" [1] = "\"p\" D±E\n" := by
  obtain ⟨duration, error, hm, herr, hping, htrans⟩ :=
    (stats_display_structure (fun _ => "D") (fun _ => "E")).2.2 "p" [1] (by decide)
  rw [hping]
  rfl
/-- C8 counterexample: for a tracker whose ping map holds the single peer "X"
with an empty buffer (and no transmission peers), the report renders the
no-data marker without a trailing newline, so it is not a line of its own:
the full report (first conjunct) has the marker immediately followed by the
"Transmission rate mean by peer:" header on the same line, and differs from
the properly line-terminated variant (second conjunct), contradicting the
claim that an empty-buffer peer is rendered as a "no data" line. -/
theorem stats_display_no_data_cex :
    statsDisplay (fun _ => "") (fun _ => "") (Stats.mk [("X", [])] [] 100 "me") =
      "\"me\"\nPing mean for each peer:\nNo ping data for peer \"X\"Transmission rate mean by peer:\n" ∧
    statsDisplay (fun _ => "") (fun _ => "") (Stats.mk [("X", [])] [] 100 "me") ≠
      "\"me\"\nPing mean for each peer:\nNo ping data for peer \"X\"\nTransmission rate mean by peer:\n" := by
  constructor
  · rfl
  · decide
end P2PNodeStats
